import Mathlib

/-! ## Definitions: shallow embedding of `betterforms/changelist.py` -/

/-- One entry of `SortForm.HEADERS`, mirroring `Header.__init__`
(`name`, `label`, `column_name`, `is_sortable`) after its defaulting of
`label` and `column_name` has been applied. -/
structure Header where
  name : String
  label : String
  column_name : String
  is_sortable : Bool
  deriving DecidableEq

/-- Model of `BoundHeader.add_to_sorts`.  `k` is `self._sort_index` (the 1-based
position of the header in `HEADERS`), `sorts` the current decoded sort
descriptor (`self.sorts`).  The Python code is

    if self.sorts and abs(self.sorts[0]) == self._sort_index:
        return [-1 * self.sorts[0]] + self.sorts[1:]
    else:
        return [self._sort_index] + filter(lambda x: abs(x) != self._sort_index, self.sorts)

the `[]` branch below is the `else` branch evaluated at an empty list. -/
def add_to_sorts (k : Nat) (sorts : List Int) : List Int :=
  match sorts with
  | s :: rest =>
    if s.natAbs = k then (-s) :: rest
    else (k : Int) :: (s :: rest).filter (fun x => x.natAbs != k)
  | [] => [(k : Int)]

/-- The descriptor encoded by `BoundHeader.remove_querystring`:
`self.add_to_sorts()[1:]`. -/
def remove_from_toggle (k : Nat) (sorts : List Int) : List Int :=
  (add_to_sorts k sorts).drop 1

/-- Python 2 `str.isdigit` on one byte: the character is `'0'`–`'9'`. -/
def isDigitChar (c : Char) : Bool :=
  decide (48 ≤ c.toNat) && decide (c.toNat ≤ 57)

/-- Python 2 `str.isdigit`: non-empty and all characters are digits. -/
def isdigit (s : List Char) : Bool :=
  !s.isEmpty && s.all isDigitChar

/-- Python `s.strip('-')`: remove every leading and trailing `'-'`. -/
def stripMinus (s : List Char) : List Char :=
  ((s.dropWhile (fun c => c == '-')).reverse.dropWhile (fun c => c == '-')).reverse

/-- Helper for `splitDots`: the first segment of the split and the
remaining segments, separately. -/
def splitDotsCore : List Char → List Char × List (List Char)
  | [] => ([], [])
  | c :: rest =>
    if c == '.' then ([], (splitDotsCore rest).1 :: (splitDotsCore rest).2)
    else (c :: (splitDotsCore rest).1, (splitDotsCore rest).2)

/-- Python `raw.split('.')`: maximal runs between dots, keeping empty runs,
so that the empty string splits to one empty segment. -/
def splitDots (s : List Char) : List (List Char) :=
  (splitDotsCore s).1 :: (splitDotsCore s).2

/-- Decimal value of a digit string, most significant first
(how Python's `int` reads a digit run). -/
def natOfDigits (s : List Char) : Nat :=
  s.foldl (fun acc c => acc * 10 + (c.toNat - 48)) 0

/-- Python `int(s)` restricted to the shapes `clean_sorts` can feed it
(no surrounding whitespace, which the call site has already excluded):
an optional single `'-'` or `'+'` followed by digits.  `none` is the
`ValueError` Python raises on anything else, e.g. `int('--1')`. -/
def pyInt (s : List Char) : Option Int :=
  match s with
  | [] => none
  | c :: rest =>
    if c == '-' then (if isdigit rest then some (-(natOfDigits rest : Int)) else none)
    else if c == '+' then (if isdigit rest then some ((natOfDigits rest : Int)) else none)
    else if isdigit (c :: rest) then some ((natOfDigits (c :: rest) : Int)) else none

/-- Python `[int(sort) for sort in sorts]`; `none` when any element raises. -/
def mapPyInt : List (List Char) → Option (List Int)
  | [] => some []
  | s :: rest =>
    match pyInt s with
    | none => none
    | some i =>
      match mapPyInt rest with
      | none => none
      | some l => some (i :: l)

/-- Python list indexing `l[i]`, including negative indices counting from
the end; `none` is an `IndexError`. -/
def pyIndex {α : Type} (l : List α) (i : Int) : Option α :=
  let j : Int := if i < 0 then i + l.length else i
  if 0 ≤ j ∧ j < l.length then l.get? j.toNat else none

/-- Outcome of `all(self.HEADERS[abs(i) - 1].is_sortable for i in sorts)`,
which Python evaluates lazily left to right. -/
inductive SortableCheck
  | allOk
  | foundUnsortable
  | indexError
  deriving DecidableEq

def sortableCheck (HEADERS : List Header) : List Int → SortableCheck
  | [] => SortableCheck.allOk
  | i :: rest =>
    match pyIndex HEADERS ((i.natAbs : Int) - 1) with
    | none => SortableCheck.indexError
    | some hd =>
      if hd.is_sortable then sortableCheck HEADERS rest else SortableCheck.foundUnsortable

/-- Keys of `SortForm.error_messages`. -/
inductive SortErrorKey
  | unknown_header
  | unsortable_header
  deriving DecidableEq

/-- Model of `SortForm.error_messages`: both keys map to the same user-facing text. -/
def error_messages : SortErrorKey → String
  | SortErrorKey.unknown_header => "Invalid sort parameter"
  | SortErrorKey.unsortable_header => "Invalid sort parameter"

/-- Result of `SortForm.clean_sorts`: a decoded descriptor, a
`ValidationError` with its `error_messages` key, or an uncaught Python
exception (`ValueError` / `IndexError`). -/
inductive CleanResult
  | ok (sorts : List Int)
  | validationError (key : SortErrorKey)
  | uncaughtException
  deriving DecidableEq

/-- Range check and sortability check of `clean_sorts`, applied to the
already-parsed integers. -/
def clean_sorts_ints (HEADERS : List Header) (ints : List Int) : CleanResult :=
  if ints.any (fun s => decide (HEADERS.length < s.natAbs)) then
    CleanResult.validationError SortErrorKey.unknown_header
  else
    match sortableCheck HEADERS ints with
    | SortableCheck.allOk => CleanResult.ok ints
    | SortableCheck.foundUnsortable => CleanResult.validationError SortErrorKey.unsortable_header
    | SortableCheck.indexError => CleanResult.uncaughtException

/-- Body of `clean_sorts` after `filter(bool, raw.split('.'))`. -/
def clean_sorts_segments (HEADERS : List Header) (sorts : List (List Char)) : CleanResult :=
  if sorts.isEmpty then CleanResult.ok []
  else if !(sorts.all (fun s => isdigit (stripMinus s))) then
    CleanResult.validationError SortErrorKey.unknown_header
  else
    match mapPyInt sorts with
    | none => CleanResult.uncaughtException
    | some ints => clean_sorts_ints HEADERS ints

/-- Model of `SortForm.clean_sorts`, on the raw submitted string. -/
def clean_sorts (HEADERS : List Header) (raw : List Char) : CleanResult :=
  clean_sorts_segments HEADERS ((splitDots raw).filter (fun s => !s.isEmpty))

/-- Decimal digits of `n`, most significant first; fuel-indexed so the
recursion is structural.  `digitsNat n n` are the digits of `n ≥ 1`. -/
def digitsNat : Nat → Nat → List Nat
  | _, 0 => []
  | 0, _ => []
  | fuel + 1, n + 1 => digitsNat fuel ((n + 1) / 10) ++ [(n + 1) % 10]

def digitChar : Nat → Char
  | 0 => '0' | 1 => '1' | 2 => '2' | 3 => '3' | 4 => '4'
  | 5 => '5' | 6 => '6' | 7 => '7' | 8 => '8' | 9 => '9'
  | _ => '*'

/-- Python `str(n)` for a natural number. -/
def natDigits (n : Nat) : List Char :=
  if n = 0 then ['0'] else (digitsNat n n).map digitChar

/-- Python `str(i)` for an int. -/
def pyStr (i : Int) : List Char :=
  if i < 0 then '-' :: natDigits i.natAbs else natDigits i.natAbs

/-- The descriptor encoding used by `BoundHeader.querystring`:
`'.'.join(map(str, sorts))`. -/
def encode : List Int → List Char
  | [] => []
  | [i] => pyStr i
  | i :: j :: rest => pyStr i ++ '.' :: encode (j :: rest)

/-- A three-column registry whose columns are all sortable, for concrete
evaluations. -/
def hdrA : Header := { name := "a", label := "A", column_name := "a", is_sortable := true }

def hdrB : Header := { name := "b", label := "B", column_name := "b", is_sortable := true }

def hdrC : Header := { name := "c", label := "C", column_name := "c", is_sortable := true }

/-- Model of `SortForm.get_order_by`: one `order_by` entry per descriptor element,
`'-' + column_name` for a negative entry.  The header lookup
`self.headers[abs(sort) - 1]` is Python list indexing on the registry in
declaration order, so it admits the negative index `-1`; `none` is an
`IndexError`. -/
def get_order_by (headers : List Header) : List Int → Option (List String)
  | [] => some []
  | sort :: rest =>
    match pyIndex headers ((sort.natAbs : Int) - 1) with
    | none => none
    | some hd =>
      let param := if sort < 0 then "-" ++ hd.column_name else hd.column_name
      match get_order_by headers rest with
      | none => none
      | some l => some (param :: l)

/-- Model of `BoundHeader.is_active`: `self._sort_index in map(abs, self.sorts)`.
`si` is `self._sort_index`, i.e. the 0-based registry position plus one. -/
def is_active (sorts : List Int) (si : Nat) : Bool :=
  (sorts.map Int.natAbs).contains si

/-- Model of `BoundHeader.is_ascending`:
`self.is_active and self._sort_index in self.sorts`. -/
def is_ascending (sorts : List Int) (si : Nat) : Bool :=
  is_active sorts si && sorts.contains (si : Int)

/-- Model of `BoundHeader.is_descending`:
`self.is_active and self._sort_index not in self.sorts`. -/
def is_descending (sorts : List Int) (si : Nat) : Bool :=
  is_active sorts si && !(sorts.contains (si : Int))

/-- Model of `BoundHeader.css_classes`: `' '.join(classes)` over the built-up list. -/
def css_classes (sorts : List Int) (si : Nat) : String :=
  let classes : List String :=
    if is_active sorts si then
      ["active"] ++ (if sorts.contains (si : Int) then ["ascending"] else ["descending"])
    else []
  String.intercalate " " classes

/-- Model of `BoundHeader.priority`: `map(abs, self.sorts).index(self._sort_index) + 1`
when active, Python `None` otherwise. -/
def priority (sorts : List Int) (si : Nat) : Option Nat :=
  if is_active sorts si then some ((sorts.map Int.natAbs).indexOf si + 1) else none

/-- Python `str.isspace` on one byte, the characters `str.strip()`
removes. -/
def isSpace (c : Char) : Bool :=
  c == ' ' || c == '\t' || c == '\n' || c == '\r' || c == '\x0b' || c == '\x0c'

/-- Python `s.strip()`: remove leading and trailing whitespace. -/
def pyStrip (s : List Char) : List Char :=
  ((s.dropWhile isSpace).reverse.dropWhile isSpace).reverse

/-- A Django `Q` object as `SearchForm.get_queryset` builds them:
`Q(field__contains=term)`, `Q(field__icontains=term)`, or the disjunction
`x | y`. -/
inductive Qobj
  | contains (field : String) (term : List Char)
  | icontains (field : String) (term : List Char)
  | qor (p q : Qobj)
  deriving DecidableEq

/-- Logical shape of a `Q` object over an abstract record: `atom cs f t`
is the host query engine's substring test of term `t` against field `f`,
case-sensitively when `cs` is true. -/
def evalQ (atom : Bool → String → List Char → Bool) : Qobj → Bool
  | Qobj.contains f t => atom true f t
  | Qobj.icontains f t => atom false f t
  | Qobj.qor p q => evalQ atom p || evalQ atom q

/-- The filter `SearchForm.get_queryset` applies to the base queryset:
`none` when `q` strips to empty (queryset returned unchanged), otherwise
the `reduce(lambda x, y: x | y, args)` of the per-field `Q` objects
(`args[0]` alone when there is exactly one field). -/
def search_queryset_filter (SEARCH_FIELDS : List String) (CASE_SENSITIVE : Bool)
    (q : List Char) : Option Qobj :=
  let q' := pyStrip q
  if q'.isEmpty then none
  else
    let args := SEARCH_FIELDS.map (fun field =>
      if CASE_SENSITIVE then Qobj.contains field q' else Qobj.icontains field q')
    match args with
    | [] => none
    | [a] => some a
    | a :: rest => some (rest.foldl Qobj.qor a)

/-- The configuration error `SearchForm.__init__` raises. -/
inductive ConfigError
  | misconfiguredSearch
  deriving DecidableEq

/-- Model of `SearchForm.__init__` after resolving
`kwargs.pop('search_fields', self.SEARCH_FIELDS)`: `none` models an unset
field list (Python `None`), and only that case raises
`ImproperlyConfigured`. -/
def searchForm_init (search_fields : Option (List String)) : Except ConfigError (List String) :=
  match search_fields with
  | none => Except.error ConfigError.misconfiguredSearch
  | some fields => Except.ok fields

/-! ## Theorems -/

/-- Claim C1: if the current descriptor is non-empty and its first element's
magnitude is `k`, `add_to_sorts` flips just the sign of that first element;
otherwise it returns `+k` followed by the current descriptor with every
element of magnitude `k` removed, order preserved. -/
theorem add_to_sorts_spec (k : Nat) (hk : 1 ≤ k) (sorts : List Int) :
    (∀ s rest, sorts = s :: rest → s.natAbs = k →
        add_to_sorts k sorts = (-s) :: rest)
    ∧ ((∀ s rest, sorts = s :: rest → s.natAbs ≠ k) →
        add_to_sorts k sorts = (k : Int) :: sorts.filter (fun x => x.natAbs != k)) := by
  constructor
  · rintro s rest rfl habs
    simp [add_to_sorts, habs]
  · intro h
    cases sorts with
    | nil => rfl
    | cons s rest =>
      have hs := h s rest rfl
      simp [add_to_sorts, hs]

theorem add_to_sorts_spec_witness : add_to_sorts 2 [(-2 : Int), 1] = [(2 : Int), 1] := by
  have h := (add_to_sorts_spec 2 (by decide) [(-2 : Int), 1]).1 (-2) [1] rfl (by decide)
  rw [h]; decide

/-- Claim C9: dropping the first element of the toggle result deletes every
element of magnitude `k` from a duplicate-free descriptor and keeps the rest
in order. -/
theorem remove_from_toggle_spec (k : Nat) (hk : 1 ≤ k) (sorts : List Int)
    (hnd : (sorts.map Int.natAbs).Nodup) :
    remove_from_toggle k sorts = sorts.filter (fun x => x.natAbs != k) := by
  cases sorts with
  | nil => rfl
  | cons s rest =>
    rw [List.map_cons, List.nodup_cons] at hnd
    by_cases habs : s.natAbs = k
    · have hrest : rest.filter (fun x => x.natAbs != k) = rest := by
        rw [List.filter_eq_self]
        intro x hx
        have : x.natAbs ≠ k := by
          intro he
          have hmem : x.natAbs ∈ rest.map Int.natAbs := List.mem_map_of_mem Int.natAbs hx
          rw [he, ← habs] at hmem
          exact hnd.1 hmem
        simpa using this
      simp [remove_from_toggle, add_to_sorts, habs, hrest]
    · simp [remove_from_toggle, add_to_sorts, habs]

theorem remove_from_toggle_spec_witness :
    remove_from_toggle 1 [(2 : Int), -1] = [(2 : Int)] := by
  have h := remove_from_toggle_spec 1 (by decide) [(2 : Int), -1] (by decide)
  rw [h]; decide

/-- Claim C10: on a descriptor with pairwise-distinct magnitudes,
`add_to_sorts` yields a non-empty descriptor whose first element has
magnitude `k` and whose magnitudes are again pairwise distinct. -/
theorem add_to_sorts_invariant (k : Nat) (hk : 1 ≤ k) (sorts : List Int)
    (hnd : (sorts.map Int.natAbs).Nodup) :
    add_to_sorts k sorts ≠ []
    ∧ (∀ s rest, add_to_sorts k sorts = s :: rest → s.natAbs = k)
    ∧ ((add_to_sorts k sorts).map Int.natAbs).Nodup := by
  cases sorts with
  | nil =>
    refine ⟨by simp [add_to_sorts], ?_, by simp [add_to_sorts]⟩
    rintro s rest h
    rw [show add_to_sorts k [] = [(k : Int)] from rfl] at h
    injection h with h1 h2
    rw [← h1, Int.natAbs_ofNat]
  | cons a rest =>
    by_cases habs : a.natAbs = k
    · refine ⟨by simp [add_to_sorts, habs], ?_, ?_⟩
      · rintro s rest' h
        simp [add_to_sorts, habs] at h
        rw [← h.1, Int.natAbs_neg, habs]
      · simpa [add_to_sorts, habs, Int.natAbs_neg] using hnd
    · have hfil : (((a :: rest).filter (fun x => x.natAbs != k)).map Int.natAbs).Nodup :=
        ((List.filter_sublist (a :: rest)).map Int.natAbs).nodup hnd
      have hnotmem : k ∉ ((a :: rest).filter (fun x => x.natAbs != k)).map Int.natAbs := by
        intro hmem
        obtain ⟨x, hx, hxk⟩ := List.mem_map.mp hmem
        have := List.of_mem_filter hx
        simp [hxk] at this
      refine ⟨by simp [add_to_sorts, habs], ?_, ?_⟩
      · rintro s rest' h
        simp only [add_to_sorts, if_neg habs] at h
        rw [← (List.cons.injEq _ _ _ _ |>.mp h).1, Int.natAbs_ofNat]
      · simp only [add_to_sorts, if_neg habs, List.map_cons, List.nodup_cons, Int.natAbs_ofNat]
        exact ⟨hnotmem, hfil⟩

theorem add_to_sorts_invariant_witness :
    ((add_to_sorts 1 [(2 : Int), -1]).map Int.natAbs).Nodup :=
  (add_to_sorts_invariant 1 (by decide) [(2 : Int), -1] (by decide)).2.2

/-- Claim C3 fails on the code: the raw string `"0"` parses to magnitude 0,
which the range check `abs(sort) > len(HEADERS)` does not reject; the
sortability check then reads `HEADERS[-1]` (the last header, by Python
negative indexing), so with three sortable headers the descriptor `[0]` is
accepted, and `get_order_by` resolves it to the last column ascending. -/
theorem clean_sorts_accepts_zero :
    clean_sorts [hdrA, hdrB, hdrC] ['0'] = CleanResult.ok [0]
    ∧ get_order_by [hdrA, hdrB, hdrC] [0] = some ["c"] := by
  constructor <;> rfl

/-- Claim C4 fails on the code: the segment `"--1"` is not of the form
`-?[0-9]+`, yet `'--1'.strip('-')` is `'1'`, so the syntax check passes and
`int('--1')` raises an uncaught `ValueError` instead of a
`ValidationError`. -/
theorem clean_sorts_double_minus_crash :
    clean_sorts [hdrA] ['-', '-', '1'] = CleanResult.uncaughtException := by
  rfl

/-- On an in-range non-zero index, Python indexing at `abs(s) - 1` is plain
zero-based list lookup. -/
theorem pyIndex_of_valid (headers : List Header) (s : Int) (hs0 : s ≠ 0)
    (hsle : s.natAbs ≤ headers.length) :
    pyIndex headers ((s.natAbs : Int) - 1) = headers.get? (s.natAbs - 1) := by
  have h1 : 1 ≤ s.natAbs := by
    rcases Nat.eq_zero_or_pos s.natAbs with h | h
    · exact absurd (Int.natAbs_eq_zero.mp h) hs0
    · exact h
  unfold pyIndex
  have hneg : ¬ ((s.natAbs : Int) - 1 < 0) := by omega
  rw [if_neg hneg]
  have hcond : (0 : Int) ≤ (s.natAbs : Int) - 1 ∧ (s.natAbs : Int) - 1 < (headers.length : Int) := by
    constructor <;> omega
  rw [if_pos hcond]
  congr 1
  omega

/-- Claim C5: on a validated descriptor (non-zero magnitudes within range)
`get_order_by` succeeds and emits, in descriptor order, the `column_name`
of the header at position `abs(s) - 1`, with a leading `"-"` exactly when
`s < 0`; the empty descriptor yields the empty list. -/
theorem get_order_by_spec (headers : List Header) (sorts : List Int)
    (h : ∀ s ∈ sorts, s ≠ 0 ∧ s.natAbs ≤ headers.length) :
    get_order_by headers sorts =
      some (sorts.map (fun s =>
        match headers.get? (s.natAbs - 1) with
        | some hd => if s < 0 then "-" ++ hd.column_name else hd.column_name
        | none => "")) := by
  induction sorts with
  | nil => rfl
  | cons s rest ih =>
    obtain ⟨hs0, hsle⟩ := h s (List.mem_cons_self s rest)
    have h1 : 1 ≤ s.natAbs := by
      rcases Nat.eq_zero_or_pos s.natAbs with h' | h'
      · exact absurd (Int.natAbs_eq_zero.mp h') hs0
      · exact h'
    obtain ⟨hd, hhd⟩ : ∃ hd, headers.get? (s.natAbs - 1) = some hd := by
      have hlt : s.natAbs - 1 < headers.length := by omega
      exact ⟨headers.get ⟨s.natAbs - 1, hlt⟩, List.get?_eq_get hlt⟩
    have hrest := ih (fun x hx => h x (List.mem_cons_of_mem s hx))
    simp only [get_order_by, pyIndex_of_valid headers s hs0 hsle, hhd, hrest, List.map_cons]

theorem get_order_by_spec_witness :
    get_order_by [hdrA, hdrB] [(2 : Int), -1] = some ["b", "-a"] := by
  have h := get_order_by_spec [hdrA, hdrB] [(2 : Int), -1] (by decide)
  rw [h]; rfl

/-- Python `list.index` on the magnitudes finds the first position whose element
has the sought magnitude. -/
theorem indexOf_natAbs_spec (si : Nat) (l : List Int) (h : si ∈ l.map Int.natAbs) :
    ∃ k s, l.get? k = some s ∧ s.natAbs = si ∧
      (∀ j, j < k → ∀ t, l.get? j = some t → t.natAbs ≠ si) ∧
      (l.map Int.natAbs).indexOf si = k := by
  induction l with
  | nil => simp at h
  | cons a t ih =>
    by_cases ha : a.natAbs = si
    · refine ⟨0, a, rfl, ha, ?_, ?_⟩
      · intro j hj
        omega
      · rw [List.map_cons, List.indexOf_cons_eq _ ha]
    · have h' : si ∈ t.map Int.natAbs := by
        rcases List.mem_map.mp h with ⟨x, hx, hxsi⟩
        rcases List.mem_cons.mp hx with rfl | hxt
        · exact absurd hxsi ha
        · exact hxsi ▸ List.mem_map_of_mem Int.natAbs hxt
      obtain ⟨k, s, h1, h2, h3, h4⟩ := ih h'
      refine ⟨k + 1, s, h1, h2, ?_, ?_⟩
      · intro j hj u hu
        cases j with
        | zero =>
          intro habs
          exact ha (by injection hu with hu'; rw [hu', habs])
        | succ j' => exact h3 j' (by omega) u hu
      · rw [List.map_cons, List.indexOf_cons_ne _ ha, h4]

/-- Claim C6: for a header at 0-based position `i` (so `sortIndex = i + 1`),
`is_active` holds iff the sort index occurs among the descriptor's
magnitudes, `is_ascending` iff additionally `+sortIndex` occurs literally,
`is_descending` iff active but not ascending; when active, `priority` is the
1-based position of the first element of that magnitude and `css_classes` is
`"active ascending"` or `"active descending"`; when inactive `priority` is
absent and `css_classes` empty. -/
theorem bound_header_spec (i : Nat) (sorts : List Int) :
    (is_active sorts (i + 1) = true ↔ (i + 1) ∈ sorts.map Int.natAbs)
    ∧ (is_ascending sorts (i + 1) = true ↔
        (is_active sorts (i + 1) = true ∧ ((i + 1 : Nat) : Int) ∈ sorts))
    ∧ (is_descending sorts (i + 1) = true ↔
        (is_active sorts (i + 1) = true ∧ is_ascending sorts (i + 1) = false))
    ∧ (is_active sorts (i + 1) = true →
        ∃ k s, sorts.get? k = some s ∧ s.natAbs = i + 1 ∧
          (∀ j, j < k → ∀ t, sorts.get? j = some t → t.natAbs ≠ i + 1) ∧
          priority sorts (i + 1) = some (k + 1))
    ∧ (is_active sorts (i + 1) = false → priority sorts (i + 1) = none)
    ∧ (is_ascending sorts (i + 1) = true → css_classes sorts (i + 1) = "active ascending")
    ∧ (is_descending sorts (i + 1) = true → css_classes sorts (i + 1) = "active descending")
    ∧ (is_active sorts (i + 1) = false → css_classes sorts (i + 1) = "") := by
  have hmem : is_active sorts (i + 1) = true ↔ (i + 1) ∈ sorts.map Int.natAbs := by
    simp [is_active]
  refine ⟨hmem, ?_, ?_, ?_, ?_, ?_, ?_, ?_⟩
  · simp [is_ascending]
  · unfold is_descending is_ascending
    cases h1 : is_active sorts (i + 1) <;> cases h2 : sorts.contains ((i + 1 : Nat) : Int) <;>
      simp [h1, h2]
  · intro hact
    obtain ⟨k, s, h1, h2, h3, h4⟩ := indexOf_natAbs_spec (i + 1) sorts (hmem.mp hact)
    exact ⟨k, s, h1, h2, h3, by rw [priority, if_pos hact, h4]⟩
  · intro hact
    rw [priority, if_neg (by simp [hact])]
  · intro hasc
    rw [is_ascending, Bool.and_eq_true] at hasc
    rw [css_classes]
    simp only [if_pos hasc.1, if_pos hasc.2]
    rfl
  · intro hdesc
    rw [is_descending, Bool.and_eq_true, Bool.not_eq_true'] at hdesc
    rw [css_classes]
    simp only [if_pos hdesc.1, hdesc.2]
    rfl
  · intro hact
    rw [css_classes]
    simp only [hact]
    rfl

theorem bound_header_spec_witness :
    css_classes [(2 : Int), -1] 1 = "active descending" :=
  (bound_header_spec 0 [(2 : Int), -1]).2.2.2.2.2.2.1 (by decide)

theorem evalQ_foldl (atom : Bool → String → List Char → Bool) (l : List Qobj) :
    ∀ a, evalQ atom (l.foldl Qobj.qor a) = (evalQ atom a || l.any (evalQ atom)) := by
  induction l with
  | nil => intro a; simp
  | cons b t ih =>
    intro a
    rw [List.foldl_cons, ih (Qobj.qor a b), List.any_cons,
      show evalQ atom (Qobj.qor a b) = (evalQ atom a || evalQ atom b) from rfl,
      Bool.or_assoc]

theorem evalQ_any_map (atom : Bool → String → List Char → Bool) (cs : Bool) (q' : List Char)
    (l : List String) :
    (l.map (fun field =>
      if cs then Qobj.contains field q' else Qobj.icontains field q')).any (evalQ atom)
      = l.any (fun f => atom cs f q') := by
  induction l with
  | nil => rfl
  | cons f t ih =>
    rw [List.map_cons, List.any_cons, List.any_cons, ih]
    cases cs <;> rfl

/-- Claim C7: with at least one declared field, an all-whitespace term
applies no filter; otherwise the applied filter evaluates, on every record,
to the OR over the declared fields of the per-field containment test on the
stripped term (with the case-sensitivity flag passed through), and a single
declared field yields that field's bare predicate with no OR wrapping. -/
theorem search_queryset_filter_spec (SEARCH_FIELDS : List String) (cs : Bool)
    (q : List Char) (hf : SEARCH_FIELDS ≠ []) :
    (pyStrip q = [] → search_queryset_filter SEARCH_FIELDS cs q = none)
    ∧ (pyStrip q ≠ [] → ∀ atom : Bool → String → List Char → Bool,
        Option.map (evalQ atom) (search_queryset_filter SEARCH_FIELDS cs q)
          = some (SEARCH_FIELDS.any (fun f => atom cs f (pyStrip q))))
    ∧ (∀ f, SEARCH_FIELDS = [f] → pyStrip q ≠ [] →
        search_queryset_filter SEARCH_FIELDS cs q
          = some (if cs then Qobj.contains f (pyStrip q) else Qobj.icontains f (pyStrip q))) := by
  have hatom : ∀ (atom : Bool → String → List Char → Bool) (f : String),
      evalQ atom (if cs then Qobj.contains f (pyStrip q) else Qobj.icontains f (pyStrip q))
        = atom cs f (pyStrip q) := by
    intro atom f
    cases cs <;> rfl
  refine ⟨?_, ?_, ?_⟩
  · intro hq
    simp [search_queryset_filter, hq]
  · intro hq atom
    have hq' : (pyStrip q).isEmpty = false := by
      cases hpq : pyStrip q with
      | nil => exact absurd hpq hq
      | cons c t => rfl
    cases SEARCH_FIELDS with
    | nil => exact absurd rfl hf
    | cons f0 ftail =>
      cases ftail with
      | nil =>
        simp only [search_queryset_filter, hq', Bool.false_eq_true, if_false, List.map_cons,
          List.map_nil, Option.map_some', List.any_cons, List.any_nil, Bool.or_false]
        rw [hatom]
      | cons f1 ftail2 =>
        simp only [search_queryset_filter, hq', Bool.false_eq_true, if_false, List.map_cons,
          Option.map_some']
        congr 1
        rw [evalQ_foldl, List.any_cons, evalQ_any_map, hatom, hatom,
          List.any_cons, List.any_cons]
  · intro f hfields hq
    subst hfields
    have hq' : (pyStrip q).isEmpty = false := by
      cases hpq : pyStrip q with
      | nil => exact absurd hpq hq
      | cons c t => rfl
    simp [search_queryset_filter, hq']

theorem search_queryset_filter_spec_witness :
    search_queryset_filter ["name"] false ['a', 'b', 'c']
      = some (Qobj.icontains "name" ['a', 'b', 'c']) :=
  (search_queryset_filter_spec ["name"] false ['a', 'b', 'c'] (by decide)).2.2
    "name" rfl (by decide)

/-- Claim C8 fails on the code: constructing a `SearchForm` whose field
list is the *empty list* succeeds, because `__init__` only tests
`SEARCH_FIELDS is None`. -/
theorem searchForm_init_empty_accepted :
    searchForm_init (some []) = Except.ok [] := rfl

/-- Claim C8 amended: construction fails with `MisconfiguredSearch` iff the
field list is unset (`None`); any concrete list, the empty one included, is
accepted. -/
theorem searchForm_init_spec (search_fields : Option (List String)) :
    (search_fields = none →
        searchForm_init search_fields = Except.error ConfigError.misconfiguredSearch)
    ∧ (∀ fields, search_fields = some fields →
        searchForm_init search_fields = Except.ok fields) := by
  constructor
  · rintro rfl; rfl
  · rintro fields rfl; rfl

theorem searchForm_init_spec_witness :
    searchForm_init none = Except.error ConfigError.misconfiguredSearch :=
  (searchForm_init_spec none).1 rfl

theorem splitDotsCore_no_dot : ∀ s : List Char, (∀ c ∈ s, c ≠ '.') →
    splitDotsCore s = (s, [])
  | [], _ => rfl
  | c :: rest, h => by
    have hc : ¬ ((c == '.') = true) := by
      simpa using h c (List.mem_cons_self c rest)
    rw [splitDotsCore, if_neg hc,
      splitDotsCore_no_dot rest (fun x hx => h x (List.mem_cons_of_mem c hx))]

theorem splitDotsCore_append : ∀ (s t : List Char), (∀ c ∈ s, c ≠ '.') →
    splitDotsCore (s ++ '.' :: t) = (s, (splitDotsCore t).1 :: (splitDotsCore t).2)
  | [], t, _ => by
    rw [List.nil_append, splitDotsCore, if_pos (by decide)]
  | c :: s', t, h => by
    have hc : ¬ ((c == '.') = true) := by
      simpa using h c (List.mem_cons_self c s')
    rw [List.cons_append, splitDotsCore, if_neg hc,
      splitDotsCore_append s' t (fun x hx => h x (List.mem_cons_of_mem c hx))]

theorem splitDots_no_dot (s : List Char) (h : ∀ c ∈ s, c ≠ '.') : splitDots s = [s] := by
  unfold splitDots
  rw [splitDotsCore_no_dot s h]

theorem splitDots_append (s t : List Char) (h : ∀ c ∈ s, c ≠ '.') :
    splitDots (s ++ '.' :: t) = s :: splitDots t := by
  unfold splitDots
  rw [splitDotsCore_append s t h]

theorem digitsNat_mem_lt : ∀ (fuel n : Nat), ∀ d ∈ digitsNat fuel n, d < 10
  | 0, 0 => by simp [digitsNat]
  | 0, _ + 1 => by simp [digitsNat]
  | _ + 1, 0 => by simp [digitsNat]
  | fuel + 1, n + 1 => by
    intro d hd
    rw [digitsNat] at hd
    rcases List.mem_append.mp hd with h | h
    · exact digitsNat_mem_lt fuel ((n + 1) / 10) d h
    · simp only [List.mem_singleton] at h
      omega

theorem digitsNat_ne_nil (fuel n : Nat) (h1 : 1 ≤ n) (h2 : n ≤ fuel) :
    digitsNat fuel n ≠ [] := by
  cases fuel with
  | zero => omega
  | succ f =>
    cases n with
    | zero => omega
    | succ m => simp [digitsNat]

theorem digitsNat_foldl : ∀ (fuel n : Nat), n ≤ fuel → ∀ acc : Nat,
    (digitsNat fuel n).foldl (fun a d => a * 10 + d) acc
      = acc * 10 ^ (digitsNat fuel n).length + n
  | 0, 0, _, acc => by simp [digitsNat]
  | 0, n + 1, h, _ => by omega
  | fuel + 1, 0, _, acc => by simp [digitsNat]
  | fuel + 1, n + 1, h, acc => by
    have hdiv : (n + 1) / 10 ≤ fuel := by
      have := Nat.div_lt_self (Nat.succ_pos n) (by norm_num : 1 < 10)
      omega
    rw [digitsNat, List.foldl_append, digitsNat_foldl fuel ((n + 1) / 10) hdiv acc,
      List.length_append]
    simp only [List.foldl_cons, List.foldl_nil, List.length_cons, List.length_nil]
    rw [Nat.zero_add, pow_succ, ← Nat.mul_assoc]
    generalize acc * 10 ^ (digitsNat fuel ((n + 1) / 10)).length = A
    omega

theorem isDigitChar_digitChar (d : Nat) (h : d < 10) : isDigitChar (digitChar d) = true := by
  interval_cases d <;> decide

theorem digitChar_toNat (d : Nat) (h : d < 10) : (digitChar d).toNat - 48 = d := by
  interval_cases d <;> decide

theorem isDigitChar_ne_special (c : Char) (h : isDigitChar c = true) :
    c ≠ '-' ∧ c ≠ '+' ∧ c ≠ '.' := by
  refine ⟨?_, ?_, ?_⟩ <;> rintro rfl <;> revert h <;> decide

theorem natDigits_all_digit (n : Nat) : ∀ c ∈ natDigits n, isDigitChar c = true := by
  intro c hc
  rw [natDigits] at hc
  split at hc
  · simp only [List.mem_singleton] at hc
    subst hc
    decide
  · obtain ⟨d, hd, rfl⟩ := List.mem_map.mp hc
    exact isDigitChar_digitChar d (digitsNat_mem_lt n n d hd)

theorem natDigits_ne_nil (n : Nat) : natDigits n ≠ [] := by
  rw [natDigits]
  split
  · simp
  · next h =>
    intro he
    exact digitsNat_ne_nil n n (by omega) le_rfl (List.map_eq_nil_iff.mp he)

theorem foldl_congr_mem {α β : Type} (f g : β → α → β) :
    ∀ l : List α, (∀ b a, a ∈ l → f b a = g b a) → ∀ b, l.foldl f b = l.foldl g b
  | [], _, _ => rfl
  | a :: t, h, b => by
    rw [List.foldl_cons, List.foldl_cons, h b a (List.mem_cons_self a t)]
    exact foldl_congr_mem f g t (fun b' a' ha' => h b' a' (List.mem_cons_of_mem a ha')) _

theorem natOfDigits_natDigits (n : Nat) : natOfDigits (natDigits n) = n := by
  rw [natDigits]
  split
  · next h => subst h; decide
  · next h =>
    have hcg := foldl_congr_mem (fun a c => a * 10 + ((digitChar c).toNat - 48))
      (fun a d => a * 10 + d) (digitsNat n n)
      (fun b a ha => by
        show b * 10 + ((digitChar a).toNat - 48) = b * 10 + a
        rw [digitChar_toNat a (digitsNat_mem_lt n n a ha)]) 0
    rw [natOfDigits, List.foldl_map, hcg, digitsNat_foldl n n le_rfl 0,
      Nat.zero_mul, Nat.zero_add]

theorem isdigit_natDigits (n : Nat) : isdigit (natDigits n) = true := by
  rw [isdigit, Bool.and_eq_true]
  constructor
  · cases h : natDigits n with
    | nil => exact absurd h (natDigits_ne_nil n)
    | cons c t => rfl
  · rw [List.all_eq_true]
    exact natDigits_all_digit n

theorem dropWhile_minus_digits (s : List Char) (h : ∀ c ∈ s, isDigitChar c = true) :
    s.dropWhile (fun c => c == '-') = s := by
  cases s with
  | nil => rfl
  | cons c t =>
    rw [List.dropWhile_cons]
    have hc : ¬ ((c == '-') = true) := by
      simpa using (isDigitChar_ne_special c (h c (List.mem_cons_self c t))).1
    rw [if_neg hc]

theorem stripMinus_of_digits (s : List Char) (h : ∀ c ∈ s, isDigitChar c = true) :
    stripMinus s = s := by
  rw [stripMinus, dropWhile_minus_digits s h,
    dropWhile_minus_digits s.reverse (fun c hc => h c (List.mem_reverse.mp hc)),
    List.reverse_reverse]

theorem stripMinus_cons_minus (s : List Char) : stripMinus ('-' :: s) = stripMinus s := by
  rw [stripMinus, stripMinus, List.dropWhile_cons, if_pos (by decide)]

theorem stripMinus_pyStr (i : Int) : stripMinus (pyStr i) = natDigits i.natAbs := by
  rw [pyStr]
  split
  · rw [stripMinus_cons_minus, stripMinus_of_digits _ (natDigits_all_digit _)]
  · exact stripMinus_of_digits _ (natDigits_all_digit _)

theorem pyStr_ne_nil (i : Int) : pyStr i ≠ [] := by
  rw [pyStr]
  split
  · simp
  · exact natDigits_ne_nil _

theorem pyStr_no_dot (i : Int) : ∀ c ∈ pyStr i, c ≠ '.' := by
  intro c hc
  have hdig : ∀ x ∈ natDigits i.natAbs, x ≠ '.' := fun x hx =>
    (isDigitChar_ne_special x (natDigits_all_digit _ x hx)).2.2
  rw [pyStr] at hc
  split at hc
  · rcases List.mem_cons.mp hc with rfl | hmem
    · decide
    · exact hdig c hmem
  · exact hdig c hc

theorem pyInt_pyStr (i : Int) : pyInt (pyStr i) = some i := by
  by_cases hi : i < 0
  · rw [pyStr, if_pos hi, pyInt, if_pos (by decide),
      if_pos (isdigit_natDigits i.natAbs), natOfDigits_natDigits]
    have : ((i.natAbs : Int)) = -i := Int.ofNat_natAbs_of_nonpos (le_of_lt hi)
    rw [this, neg_neg]
  · rw [pyStr, if_neg hi]
    obtain ⟨c, t, hct⟩ : ∃ c t, natDigits i.natAbs = c :: t := by
      cases h : natDigits i.natAbs with
      | nil => exact absurd h (natDigits_ne_nil _)
      | cons c t => exact ⟨c, t, rfl⟩
    have hcdig : isDigitChar c = true :=
      natDigits_all_digit _ c (hct ▸ List.mem_cons_self c t)
    obtain ⟨h1, h2, _⟩ := isDigitChar_ne_special c hcdig
    rw [hct, pyInt, if_neg (by simpa using h1), if_neg (by simpa using h2),
      if_pos (hct ▸ isdigit_natDigits i.natAbs), ← hct, natOfDigits_natDigits]
    congr 1
    exact Int.natAbs_of_nonneg (not_lt.mp hi)

theorem mapPyInt_map_pyStr : ∀ d : List Int, mapPyInt (d.map pyStr) = some d
  | [] => rfl
  | i :: rest => by
    simp [mapPyInt, pyInt_pyStr, mapPyInt_map_pyStr rest]

theorem splitDots_encode : ∀ d : List Int, d ≠ [] → splitDots (encode d) = d.map pyStr
  | [], h => absurd rfl h
  | [i], _ => by
    rw [encode, splitDots_no_dot (pyStr i) (pyStr_no_dot i), List.map_cons, List.map_nil]
  | i :: j :: rest, _ => by
    rw [encode, splitDots_append (pyStr i) _ (pyStr_no_dot i),
      splitDots_encode (j :: rest) (by simp)]
    rfl

theorem filter_nonempty_of_ne_nil (l : List (List Char)) (h : ∀ s ∈ l, s ≠ []) :
    l.filter (fun s => !s.isEmpty) = l := by
  rw [List.filter_eq_self]
  intro s hs
  cases hso : s with
  | nil => exact absurd hso (h s hs)
  | cons c t => rfl

theorem sortableCheck_allOk (HEADERS : List Header) :
    ∀ l : List Int, (∀ s ∈ l, s ≠ 0 ∧ s.natAbs ≤ HEADERS.length ∧
        ((HEADERS.get? (s.natAbs - 1)).map Header.is_sortable).getD false = true) →
      sortableCheck HEADERS l = SortableCheck.allOk
  | [], _ => rfl
  | s :: rest, h => by
    obtain ⟨hs0, hsle, hsort⟩ := h s (List.mem_cons_self s rest)
    obtain ⟨hd, hhd⟩ : ∃ hd, HEADERS.get? (s.natAbs - 1) = some hd := by
      have h1 : 1 ≤ s.natAbs := by
        rcases Nat.eq_zero_or_pos s.natAbs with h' | h'
        · exact absurd (Int.natAbs_eq_zero.mp h') hs0
        · exact h'
      have hlt : s.natAbs - 1 < HEADERS.length := by omega
      exact ⟨HEADERS.get ⟨s.natAbs - 1, hlt⟩, List.get?_eq_get hlt⟩
    rw [hhd] at hsort
    simp only [Option.map_some', Option.getD_some] at hsort
    rw [sortableCheck, pyIndex_of_valid HEADERS s hs0 hsle, hhd]
    show (if hd.is_sortable = true then sortableCheck HEADERS rest else
      SortableCheck.foundUnsortable) = SortableCheck.allOk
    rw [if_pos hsort]
    exact sortableCheck_allOk HEADERS rest (fun x hx => h x (List.mem_cons_of_mem s hx))

/-- Claim C2: decoding the dot-joined decimal encoding of a well-formed
descriptor (non-zero entries, pairwise-distinct magnitudes, magnitudes
within `[1, len(HEADERS)]`, every referenced header sortable) succeeds and
returns exactly that descriptor. -/
theorem clean_sorts_encode_roundtrip (HEADERS : List Header) (d : List Int)
    (hnz : ∀ s ∈ d, s ≠ 0)
    (hnd : (d.map Int.natAbs).Nodup)
    (hrange : ∀ s ∈ d, s.natAbs ≤ HEADERS.length)
    (hsort : ∀ s ∈ d,
      ((HEADERS.get? (s.natAbs - 1)).map Header.is_sortable).getD false = true) :
    clean_sorts HEADERS (encode d) = CleanResult.ok d := by
  by_cases hd0 : d = []
  · subst hd0; rfl
  · have hsegs : (splitDots (encode d)).filter (fun s => !s.isEmpty) = d.map pyStr := by
      rw [splitDots_encode d hd0]
      exact filter_nonempty_of_ne_nil _ (fun s hs => by
        obtain ⟨x, _, rfl⟩ := List.mem_map.mp hs
        exact pyStr_ne_nil x)
    have hne : ¬ ((d.map pyStr).isEmpty = true) := by
      cases d with
      | nil => exact absurd rfl hd0
      | cons a t => simp
    have hall : (d.map pyStr).all (fun s => isdigit (stripMinus s)) = true := by
      rw [List.all_eq_true]
      intro s hs
      obtain ⟨x, _, rfl⟩ := List.mem_map.mp hs
      rw [stripMinus_pyStr, isdigit_natDigits]
    have hany : ¬ (d.any (fun s => decide (HEADERS.length < s.natAbs)) = true) := by
      intro hcase
      obtain ⟨x, hx, hpx⟩ := List.any_eq_true.mp hcase
      rw [decide_eq_true_eq] at hpx
      exact absurd (hrange x hx) (by omega)
    unfold clean_sorts
    rw [hsegs, clean_sorts_segments, if_neg hne, if_neg (by rw [hall]; decide),
      mapPyInt_map_pyStr]
    show clean_sorts_ints HEADERS d = CleanResult.ok d
    rw [clean_sorts_ints, if_neg hany,
      sortableCheck_allOk HEADERS d (fun s hs => ⟨hnz s hs, hrange s hs, hsort s hs⟩)]

theorem clean_sorts_encode_roundtrip_witness :
    clean_sorts [hdrA, hdrB] (encode [(2 : Int), -1]) = CleanResult.ok [(2 : Int), -1] :=
  clean_sorts_encode_roundtrip [hdrA, hdrB] [(2 : Int), -1]
    (by decide) (by decide) (by decide) (by decide)
